import Mathlib

/-!
# Verification of the minicrm database infrastructure layer

Shallow embedding of the database layer of the repository
(`crates/infrastructure/src/database/{connection,migrations,health,pool}.rs`)
and proofs of the specified properties: transaction atomicity, migration
selection/ordering, idempotence of `migrate(None)`, the ledger invariant,
health-report aggregation, and pool-status utilization.

Conventions of the embedding:
* Rust `Result<T, anyhow::Error>` becomes `Except AnyErr T`.
* The connection state visible to this layer is `Db σ`: an abstract schema
  component `σ` (mutated only by migration scripts, which SQLite executes as
  opaque strings, modelled by an `engine` parameter) together with the
  `schema_migrations` ledger table, whose fixed SQL statements
  (CREATE TABLE IF NOT EXISTS / INSERT / DELETE / SELECT MAX) are embedded
  directly.
* Environmental failures of the storage engine (BEGIN / COMMIT / ROLLBACK
  returning an error) are supplied explicitly through a `TxEnv` record.
* `f64` appears only in utilization / size computations on integral inputs;
  those are modelled over `ℚ`, with IEEE division-by-zero cases noted inline.
-/

set_option autoImplicit false

namespace MiniCrm

/-! ## Errors

`rusqlite::Error` (the variants this layer can observe) and `anyhow::Error`
with its context chain, as used throughout `connection.rs`. -/

/-- The `rusqlite` error variants reachable from this layer:
`QueryReturnedNoRows` (a single-row query matched zero rows) and engine-level
statement failures carrying a message. -/
inductive SqliteErr where
  | queryReturnedNoRows
  | sqliteFailure (msg : String)
  deriving DecidableEq, Repr

/-- `anyhow::Error`: either a wrapped `rusqlite` error, an ad-hoc message
(`anyhow::anyhow!`), or a context layer added by `.context(...)` /
`.with_context(...)` on top of an underlying error. -/
inductive AnyErr where
  | sqlite (e : SqliteErr)
  | msg (s : String)
  | context (c : String) (src : AnyErr)
  deriving DecidableEq, Repr

/-- The root cause of an `anyhow` error chain: strip all context layers.
This is what `err.downcast_ref::<rusqlite::Error>()` inspects. -/
def AnyErr.rootCause : AnyErr → AnyErr
  | .context _ e => e.rootCause
  | .sqlite e => .sqlite e
  | .msg s => .msg s

/-! ## `DatabaseConnection::query_row` (connection.rs, lines 129–143)

`conn.query_row(sql, params, f)` in rusqlite runs the statement; a failing
statement yields its engine error, an empty result set yields
`Error::QueryReturnedNoRows`, otherwise the mapper is applied to the first
row.  The wrapper adds the context `"查询执行失败: {sql}"` to any error. -/

section QueryRow

variable {Row T : Type}

/-- rusqlite's `Connection::query_row`: the outcome of running the statement
is either a statement failure or the list of result rows; zero rows map to
`QueryReturnedNoRows`, otherwise the mapper runs on the first row. -/
def rusqliteQueryRow (queryOutcome : Except SqliteErr (List Row))
    (f : Row → Except SqliteErr T) : Except SqliteErr T :=
  match queryOutcome with
  | .error e => .error e
  | .ok [] => .error .queryReturnedNoRows
  | .ok (r :: _) => f r

/-- `DatabaseConnection::query_row`: delegates to rusqlite and wraps any
error with the context `查询执行失败: {sql}` (`with_context`). -/
def query_row (sql : String) (queryOutcome : Except SqliteErr (List Row))
    (f : Row → Except SqliteErr T) : Except AnyErr T :=
  match rusqliteQueryRow queryOutcome f with
  | .ok t => .ok t
  | .error e => .error (.context ("查询执行失败: " ++ sql) (.sqlite e))

/-- The root cause of the error of a failed call, if the call failed. -/
def errorRoot (r : Except AnyErr T) : Option AnyErr :=
  match r with
  | .ok _ => none
  | .error e => some e.rootCause

end QueryRow

/-! ## Transactions (connection.rs, lines 37–91)

A transaction body receives the full connection state and returns either a
result together with the mutated state, or an error.  `TxEnv` supplies the
outcomes of the storage engine's own BEGIN / COMMIT / ROLLBACK steps
(`none` = the step succeeds). -/

/-- Outcomes of the engine-level transaction control statements:
`beginErr`/`commitErr`/`rollbackErr` is `some e` when the corresponding step
itself fails with `e`. -/
structure TxEnv where
  beginErr : Option AnyErr
  commitErr : Option AnyErr
  rollbackErr : Option AnyErr
  deriving Repr

/-- A `TxEnv` in which BEGIN, COMMIT and ROLLBACK all succeed. -/
def TxEnv.all_ok : TxEnv := ⟨none, none, none⟩

section Transactions

variable {σ R : Type}

/-- `DatabaseConnection::with_transaction` (Immediate mode):
begin (context `无法开始数据库事务` on failure), run the body, commit on `Ok`
(context `无法提交数据库事务` on commit failure, in which case nothing is
persisted), roll back on `Err` — the rollback restores the pre-transaction
state and its own failure (`env.rollbackErr`) is only logged, never returned:
the body's original error is propagated unchanged.
Returns the call result together with the persisted connection state. -/
def with_transaction (env : TxEnv) (f : σ → Except AnyErr (R × σ)) (s : σ) :
    Except AnyErr R × σ :=
  match env.beginErr with
  | some e => (.error (.context "无法开始数据库事务" e), s)
  | none =>
    match f s with
    | .ok (r, s1) =>
      match env.commitErr with
      | some e => (.error (.context "无法提交数据库事务" e), s)
      | none => (.ok r, s1)
    | .error e => (.error e, s)

/-- `DatabaseConnection::with_read_transaction` (Deferred mode):
begin (context `无法开始只读数据库事务`), run the body, propagate a body
error with `?` (the dropped transaction rolls back), then commit (context
`无法提交只读数据库事务`).  The body receives the same full-powered
transaction handle as in Immediate mode: nothing restricts it to reads, and
SQLite's BEGIN DEFERRED permits writes (it only defers lock acquisition),
so a state mutated by the body is committed. -/
def with_read_transaction (env : TxEnv) (f : σ → Except AnyErr (R × σ)) (s : σ) :
    Except AnyErr R × σ :=
  match env.beginErr with
  | some e => (.error (.context "无法开始只读数据库事务" e), s)
  | none =>
    match f s with
    | .error e => (.error e, s)
    | .ok (r, s1) =>
      match env.commitErr with
      | some e => (.error (.context "无法提交只读数据库事务" e), s)
      | none => (.ok r, s1)

end Transactions

/-! ## Migration engine (migrations.rs)

`Migration` and `MigrationRecord` as in the source; the connection state is
`Db σ` (abstract schema plus the `schema_migrations` table, `none` while the
table does not exist).  Migration scripts are opaque SQL strings executed by
SQLite, modelled by the `engine` field of `MigCtx`; the fixed statements on
`schema_migrations` are embedded directly. -/

/-- A schema migration (migrations.rs, `Migration`). -/
structure Migration where
  version : Nat
  name : String
  up_sql : String
  down_sql : Option String
  description : String
  deriving DecidableEq, Repr

/-- A row of the `schema_migrations` ledger (migrations.rs,
`MigrationRecord`): `applied_at` is the RFC 3339 timestamp text. -/
structure MigrationRecord where
  version : Nat
  name : String
  applied_at : String
  execution_time_ms : Nat
  deriving DecidableEq, Repr

/-- The connection-visible database state: the abstract schema and the
`schema_migrations` table (`none` = the table has not been created). -/
structure Db (σ : Type) where
  schema : σ
  ledgerTable : Option (List MigrationRecord)
  deriving DecidableEq, Repr

/-- The execution context of a migration run: SQLite's interpretation of
migration scripts on the schema component, the `Utc::now().to_rfc3339()`
timestamp and the measured `elapsed().as_millis()` recorded in the ledger
row (the claims never depend on the concrete clock values). -/
structure MigCtx (σ : Type) where
  engine : String → σ → Except AnyErr σ
  now : String
  elapsedMs : Nat

section Migrations

variable {σ : Type}

/-- `MigrationManager::initialize`: `CREATE TABLE IF NOT EXISTS
schema_migrations (...)` — creates the ledger table when absent, keeps it
unchanged when present. -/
def initializeLedger (s : Db σ) : Db σ :=
  { s with ledgerTable := some (s.ledgerTable.getD []) }

/-- `SELECT MAX(version) FROM schema_migrations`: `MAX` over the rows,
`NULL` (mapped to 0) on an empty table. -/
def maxVersionOf (rows : List MigrationRecord) : Nat :=
  (rows.map (·.version)).foldr max 0

/-- `MigrationManager::get_current_version`: ledger max; 0 on an empty
table (`Ok(None)` branch) and 0 when the table is absent (the
`no such table` error branch). -/
def get_current_version (s : Db σ) : Nat :=
  match s.ledgerTable with
  | none => 0
  | some rows => maxVersionOf rows

/-- The ledger row inserted by `apply_migration` for `m`. -/
def mkRecord (ctx : MigCtx σ) (m : Migration) : MigrationRecord :=
  { version := m.version, name := m.name, applied_at := ctx.now
    execution_time_ms := ctx.elapsedMs }

/-- `INSERT INTO schema_migrations (version, name, applied_at,
execution_time_ms) VALUES (...)`: fails if the table is absent, or if a row
with the same version exists (`version INTEGER PRIMARY KEY`). -/
def ledgerInsert (rec : MigrationRecord) (s : Db σ) : Except AnyErr (Db σ) :=
  match s.ledgerTable with
  | none => .error (.sqlite (.sqliteFailure "no such table: schema_migrations"))
  | some rows =>
    if rows.any (fun r => r.version == rec.version) then
      .error (.sqlite (.sqliteFailure
        "UNIQUE constraint failed: schema_migrations.version"))
    else
      .ok { s with ledgerTable := some (rows ++ [rec]) }

/-- `DELETE FROM schema_migrations WHERE version = ?1`: removes every row
with the given version (affecting zero rows is not an error); fails if the
table is absent. -/
def ledgerDelete (v : Nat) (s : Db σ) : Except AnyErr (Db σ) :=
  match s.ledgerTable with
  | none => .error (.sqlite (.sqliteFailure "no such table: schema_migrations"))
  | some rows =>
    .ok { s with ledgerTable := some (rows.filter (fun r => r.version != v)) }

/-- The closure `apply_migration` passes to `with_transaction`: execute
`up_sql` (`?` on failure), then insert the ledger row (`?` on failure). -/
def apply_migration_tx (ctx : MigCtx σ) (m : Migration) (st : Db σ) :
    Except AnyErr (Unit × Db σ) :=
  match ctx.engine m.up_sql st.schema with
  | .error e => .error e
  | .ok schema1 =>
    match ledgerInsert (mkRecord ctx m) { st with schema := schema1 } with
    | .error e => .error e
    | .ok st1 => .ok ((), st1)

/-- `MigrationManager::apply_migration` (migrations.rs, lines 209–239):
inside one `with_transaction` (Immediate), execute `up_sql` and then insert
the ledger row; commit.  Any failure of the body rolls the step back. -/
def apply_migration (ctx : MigCtx σ) (env : TxEnv) (m : Migration)
    (s : Db σ) : Except AnyErr Unit × Db σ :=
  with_transaction env (apply_migration_tx ctx m) s

/-- The closure `revert_migration` passes to `with_transaction`: execute
the reverse script (`?` on failure), then delete the ledger row. -/
def revert_migration_tx (ctx : MigCtx σ) (m : Migration) (down : String)
    (st : Db σ) : Except AnyErr (Unit × Db σ) :=
  match ctx.engine down st.schema with
  | .error e => .error e
  | .ok schema1 =>
    match ledgerDelete m.version { st with schema := schema1 } with
    | .error e => .error e
    | .ok st1 => .ok ((), st1)

/-- `MigrationManager::revert_migration` (migrations.rs, lines 242–271):
a missing `down_sql` fails immediately with
`anyhow!("迁移 v{} 没有提供回滚SQL", version)` — before any transaction is
opened; otherwise, inside one `with_transaction`, execute the reverse script
and delete the ledger row. -/
def revert_migration (ctx : MigCtx σ) (env : TxEnv) (m : Migration)
    (s : Db σ) : Except AnyErr Unit × Db σ :=
  match m.down_sql with
  | none =>
    (.error (.msg ("迁移 v" ++ toString m.version ++ " 没有提供回滚SQL")), s)
  | some down =>
    with_transaction env (revert_migration_tx ctx m down) s

/-- The selection made by `migrate_up`:
`migrations.iter().filter(|m| m.version > from_version && m.version <= to_version)`
(the manager's list order, ascending once sorted by version). -/
def migrations_to_apply (migs : List Migration) (from_version to_version : Nat) :
    List Migration :=
  migs.filter (fun m =>
    decide (from_version < m.version) && decide (m.version ≤ to_version))

/-- The selection made by `migrate_down`: the same filter with the bounds
`(to_version, from_version]`, then `.rev()` (descending once sorted). -/
def migrations_to_revert (migs : List Migration) (to_version from_version : Nat) :
    List Migration :=
  (migs.filter (fun m =>
    decide (to_version < m.version) && decide (m.version ≤ from_version))).reverse

/-- The `for` loop of `migrate_up`: apply each migration in list order,
stopping at the first failure (`?`). -/
def apply_list (ctx : MigCtx σ) (env : TxEnv) :
    List Migration → Db σ → Except AnyErr Unit × Db σ
  | [], s => (.ok (), s)
  | m :: rest, s =>
    match apply_migration ctx env m s with
    | (.ok _, s1) => apply_list ctx env rest s1
    | (.error e, s1) => (.error e, s1)

/-- The `for` loop of `migrate_down`: revert each migration in list order,
stopping at the first failure (`?`). -/
def revert_list (ctx : MigCtx σ) (env : TxEnv) :
    List Migration → Db σ → Except AnyErr Unit × Db σ
  | [], s => (.ok (), s)
  | m :: rest, s =>
    match revert_migration ctx env m s with
    | (.ok _, s1) => revert_list ctx env rest s1
    | (.error e, s1) => (.error e, s1)

/-- `MigrationManager::migrate_up` (migrations.rs, lines 165–182): filter to
`(from_version, to_version]` and apply in turn (the empty selection only
logs a warning and succeeds, which coincides with the empty loop). -/
def migrate_up (ctx : MigCtx σ) (env : TxEnv) (migs : List Migration)
    (from_version to_version : Nat) (s : Db σ) : Except AnyErr Unit × Db σ :=
  apply_list ctx env (migrations_to_apply migs from_version to_version) s

/-- `MigrationManager::migrate_down` (migrations.rs, lines 185–206): filter
to `(to_version, from_version]`, reverse, and revert in turn. -/
def migrate_down (ctx : MigCtx σ) (env : TxEnv) (migs : List Migration)
    (from_version to_version : Nat) (s : Db σ) : Except AnyErr Unit × Db σ :=
  revert_list ctx env (migrations_to_revert migs to_version from_version) s

/-- `target_version.unwrap_or_else(|| migrations.iter().map(|m| m.version).max().unwrap_or(0))`. -/
def resolve_target (migs : List Migration) (target_version : Option Nat) : Nat :=
  target_version.getD ((migs.map (·.version)).foldr max 0)

/-- `MigrationManager::migrate` (migrations.rs, lines 137–162): initialize
the ledger, read the current version, resolve the target, then no-op /
`migrate_up` / `migrate_down` according to the comparison. -/
def migrate (ctx : MigCtx σ) (env : TxEnv) (migs : List Migration)
    (target_version : Option Nat) (s : Db σ) : Except AnyErr Unit × Db σ :=
  let s0 := initializeLedger s
  let current_version := get_current_version s0
  let target := resolve_target migs target_version
  if current_version = target then (.ok (), s0)
  else if current_version < target then
    migrate_up ctx env migs current_version target s0
  else
    migrate_down ctx env migs current_version target s0

/-- A sequence of `migrate` calls with the given targets, stopping at the
first failure. -/
def run_migrates (ctx : MigCtx σ) (env : TxEnv) (migs : List Migration) :
    List (Option Nat) → Db σ → Except AnyErr Unit × Db σ
  | [], s => (.ok (), s)
  | t :: ts, s =>
    match migrate ctx env migs t s with
    | (.ok _, s1) => run_migrates ctx env migs ts s1
    | (.error e, s1) => (.error e, s1)

/-- The versions currently recorded in the ledger table (empty when the
table is absent). -/
def ledgerVersions (s : Db σ) : List Nat :=
  (s.ledgerTable.getD []).map (·.version)

/-- The versions of the registered migrations. -/
def registeredVersions (migs : List Migration) : List Nat :=
  migs.map (·.version)

end Migrations

/-! ## Health checks (health.rs)

Each sub-check of `DatabaseHealthChecker` runs a query and measures its
wall-clock duration; `HealthEnv` supplies those externally observed
outcomes (query results and durations), and the check functions below are
the source's pure mapping from them to `HealthCheck` records, with
`check_health` (health.rs, lines 71–135) aggregating the overall flag. -/

/-- Rendering used for `e.to_string()` on an `anyhow` error: the outermost
context (anyhow's `Display`), or the message of the root error. -/
def AnyErr.render : AnyErr → String
  | .context c _ => c
  | .msg s => s
  | .sqlite .queryReturnedNoRows => "Query returned no rows"
  | .sqlite (.sqliteFailure m) => m

/-- The pool statistics read by `check_pool_health` (`pool.get_stats()`). -/
structure PoolStats where
  connections : Nat
  max_connections : Nat
  deriving DecidableEq, Repr

/-- `PoolHealthStatus` as in health.rs. -/
structure PoolHealthStatus where
  stats : PoolStats
  healthy : Bool
  utilization_percentage : ℚ
  deriving DecidableEq, Repr

/-- A single `HealthCheck` record as in health.rs. -/
structure HealthCheck where
  name : String
  passed : Bool
  duration_ms : Nat
  details : Option String
  error : Option String
  deriving DecidableEq, Repr

/-- `HealthCheckResult` as in health.rs (`timestamp` is the RFC 3339 text). -/
structure HealthCheckResult where
  timestamp : String
  healthy : Bool
  pool_status : PoolHealthStatus
  response_time_ms : Nat
  checks : List HealthCheck
  error : Option String
  deriving DecidableEq, Repr

/-- The externally observed inputs of one `check_health` invocation: pool
statistics, the probe result of `pool.health_check()`, each sub-check's
query outcome and measured duration, and the clock values. -/
structure HealthEnv where
  timestamp : String
  stats : PoolStats
  poolProbeOk : Bool
  basicResult : Except AnyErr Int
  basicDuration : Nat
  integrityResult : Except AnyErr String
  integrityDuration : Nat
  perfResult : Except AnyErr Int
  perfDuration : Nat
  pageCountResult : Except AnyErr Int
  pageSizeResult : Except AnyErr Int
  diskDuration : Nat
  totalDuration : Nat
  deriving Repr

/-- `check_pool_health` (health.rs, lines 138–150): utilization is
`(connections as f64 / max_connections as f64) * 100.0` with no zero guard —
when `max_connections = 0` the IEEE quotient is `inf` (or `NaN` for `0/0`),
and either way `utilization < 90.0` is false, so `healthy` is false; the
`ℚ` model reproduces exactly that `healthy` outcome. -/
def check_pool_health (env : HealthEnv) : PoolHealthStatus :=
  let c := env.stats.connections
  let m := env.stats.max_connections
  let utilization : ℚ := if m = 0 then 0 else (c : ℚ) / (m : ℚ) * 100
  let utilizationLt90 : Bool := if m = 0 then false else decide (utilization < 90)
  { stats := env.stats
    healthy := utilizationLt90 && env.poolProbeOk
    utilization_percentage := utilization }

/-- `check_basic_connection` (health.rs, lines 153–182): `SELECT 1`, passing
iff the result equals 1. -/
def check_basic_connection (env : HealthEnv) : HealthCheck :=
  match env.basicResult with
  | .ok result =>
    { name := "基本连接检查", passed := decide (result = 1)
      duration_ms := env.basicDuration
      details := some ("查询结果: " ++ toString result), error := none }
  | .error e =>
    { name := "基本连接检查", passed := false
      duration_ms := env.basicDuration, details := none
      error := some e.render }

/-- `check_database_integrity` (health.rs, lines 185–215):
`PRAGMA integrity_check`, passing iff the result is the token `ok`. -/
def check_database_integrity (env : HealthEnv) : HealthCheck :=
  match env.integrityResult with
  | .ok result =>
    { name := "数据库完整性检查", passed := decide (result = "ok")
      duration_ms := env.integrityDuration
      details := some ("完整性检查结果: " ++ result)
      error := if result = "ok" then none else some result }
  | .error e =>
    { name := "数据库完整性检查", passed := false
      duration_ms := env.integrityDuration, details := none
      error := some e.render }

/-- `check_performance` (health.rs, lines 218–258): a catalog count query,
passing iff its measured duration stays below 100 ms. -/
def check_performance (env : HealthEnv) : HealthCheck :=
  match env.perfResult with
  | .ok table_count =>
    let passed := decide (env.perfDuration < 100)
    { name := "性能检查", passed := passed
      duration_ms := env.perfDuration
      details := some ("表数量: " ++ toString table_count ++ ", 查询耗时: "
        ++ toString env.perfDuration ++ "ms")
      error := if passed then none
        else some ("查询耗时过长: " ++ toString env.perfDuration ++ "ms") }
  | .error e =>
    { name := "性能检查", passed := false
      duration_ms := env.perfDuration, details := none
      error := some e.render }

/-- `check_disk_space` (health.rs, lines 261–310): size =
`page_count * page_size` (page size defaulting to 4096 when its query
fails), passing iff the size in MB stays below 1024 (1 GiB). -/
def check_disk_space (env : HealthEnv) : HealthCheck :=
  match env.pageCountResult with
  | .ok page_count =>
    let page_size : Int :=
      match env.pageSizeResult with
      | .ok p => p
      | .error _ => 4096
    let db_size_bytes : Int := page_count * page_size
    let db_size_mb : ℚ := (db_size_bytes : ℚ) / (1024 * 1024)
    let passed := decide (db_size_mb < 1024)
    { name := "磁盘空间检查", passed := passed
      duration_ms := env.diskDuration
      details := some ("数据库大小: " ++ toString page_count ++ " 页, "
        ++ toString page_size ++ " 字节/页")
      error := if passed then none else some "数据库文件过大" }
  | .error e =>
    { name := "磁盘空间检查", passed := false
      duration_ms := env.diskDuration, details := none
      error := some e.render }

/-- `DatabaseHealthChecker::check_health` (health.rs, lines 71–135):
`overall_healthy` starts true and is cleared by a failing pool /
basic-connection / integrity / disk check; the failing performance check
only logs a warning.  The checks list records, in order, the connection,
integrity, performance and disk checks. -/
def check_health (env : HealthEnv) : HealthCheckResult :=
  let pool_status := check_pool_health env
  let overall1 : Bool := pool_status.healthy
  let connection_check := check_basic_connection env
  let overall2 : Bool := overall1 && connection_check.passed
  let error_message : Option String :=
    if connection_check.passed then none else connection_check.error
  let integrity_check := check_database_integrity env
  let overall3 : Bool := overall2 && integrity_check.passed
  let performance_check := check_performance env
  let disk_check := check_disk_space env
  let overall4 : Bool := overall3 && disk_check.passed
  { timestamp := env.timestamp
    healthy := overall4
    pool_status := pool_status
    response_time_ms := env.totalDuration
    checks := [connection_check, integrity_check, performance_check, disk_check]
    error := error_message }

/-- Replace only the performance-check inputs of a `HealthEnv`. -/
def HealthEnv.setPerf (env : HealthEnv) (r : Except AnyErr Int) (d : Nat) :
    HealthEnv :=
  { env with perfResult := r, perfDuration := d }

/-! ## Pool status (pool.rs, lines 163–179)

`DatabasePoolExt::get_pool_status` for the r2d2 pool: `self.state()` yields
`connections` / `idle_connections`, `self.max_size()` the capacity. -/

/-- The fields of `r2d2::State` read by `get_pool_status`. -/
structure PoolState where
  connections : Nat
  idle_connections : Nat
  deriving DecidableEq, Repr

/-- `PoolStatus` as assembled by `get_pool_status`.  The utilization is an
`f64` in the source; the computation is exact on these integral inputs and
is modelled over `ℚ`. -/
structure PoolStatus where
  healthy : Bool
  total_connections : Nat
  active_connections : Nat
  idle_connections : Nat
  utilization_percentage : ℚ
  deriving DecidableEq, Repr

/-- `DatabasePoolExt::get_pool_status`: utilization is
`(connections / max_size) * 100` guarded by `max_size() > 0`, and `0.0`
otherwise; `healthy` is `connections > 0`. -/
def get_pool_status (max_size : Nat) (state : PoolState) : PoolStatus :=
  let utilization : ℚ :=
    if max_size > 0 then (state.connections : ℚ) / (max_size : ℚ) * 100 else 0
  { healthy := decide (state.connections > 0)
    total_connections := max_size
    active_connections := state.connections
    idle_connections := state.idle_connections
    utilization_percentage := utilization }

/-! ## Concrete instances

A small registered migration set over the toy schema type `List String`
(the list of scripts the engine has executed so far), used to evaluate the
theorems on closed inputs. -/

/-- Migration v1 (has a reverse script). -/
def mig1 : Migration :=
  { version := 1, name := "create_users_table", up_sql := "u1"
    down_sql := some "d1", description := "创建用户表" }

/-- Migration v2 (has a reverse script). -/
def mig2 : Migration :=
  { version := 2, name := "create_posts_table", up_sql := "u2"
    down_sql := some "d2", description := "创建文章表" }

/-- Migration v3 (no reverse script). -/
def mig3 : Migration :=
  { version := 3, name := "create_tags_table", up_sql := "u3"
    down_sql := none, description := "创建标签表" }

/-- The registered migration set {v1, v2, v3}. -/
def migsW : List Migration := [mig1, mig2, mig3]

/-- An engine that records each executed script in the schema. -/
def ctxW : MigCtx (List String) :=
  { engine := fun sql sch => .ok (sch ++ [sql])
    now := "2026-01-01T00:00:00+00:00", elapsedMs := 1 }

/-- An engine on which every script fails. -/
def ctxFailW : MigCtx (List String) :=
  { engine := fun _ _ => .error (.msg "near u1: syntax error")
    now := "2026-01-01T00:00:00+00:00", elapsedMs := 1 }

/-- A fresh database: empty schema, ledger table not yet created. -/
def s0W : Db (List String) := { schema := [], ledgerTable := none }

/-- A transaction body that issues a write statement and succeeds. -/
def deferredWriteBody (st : Db (List String)) :
    Except AnyErr (Unit × Db (List String)) :=
  .ok ((), { st with schema := st.schema ++ ["INSERT INTO t VALUES (1)"] })

/-- The state after `migrate(Some(2))` from a fresh database: scripts u1, u2
executed, ledger rows for versions 1 and 2. -/
def s1W : Db (List String) :=
  { schema := ["u1", "u2"]
    ledgerTable := some [mkRecord ctxW mig1, mkRecord ctxW mig2] }

/-- The state after the later `migrate(Some(3))`: only the script u3 was
additionally executed, and only the version-3 row was appended. -/
def s2W : Db (List String) :=
  { schema := ["u1", "u2", "u3"]
    ledgerTable := some [mkRecord ctxW mig1, mkRecord ctxW mig2, mkRecord ctxW mig3] }

/-! ## Helper lemmas -/

/-- Whenever a `with_transaction` call fails — failed BEGIN, failed body
(rolled back), or failed COMMIT (nothing persisted) — the connection state
it returns is the pre-transaction state. -/
theorem with_transaction_fst_error {σ R : Type} (env : TxEnv)
    (f : σ → Except AnyErr (R × σ)) (s : σ) (e : AnyErr)
    (h : (with_transaction env f s).1 = .error e) :
    (with_transaction env f s).2 = s := by
  obtain ⟨be, ce, re⟩ := env
  cases be with
  | some e0 => rfl
  | none =>
    cases hf : f s with
    | error e0 => simp [with_transaction, hf]
    | ok p =>
      obtain ⟨r, s1⟩ := p
      cases ce with
      | some e0 => simp [with_transaction, hf]
      | none =>
        exfalso
        simp [with_transaction, hf] at h

/-- A successful `with_transaction` call had a successful BEGIN and COMMIT,
and its returned state is exactly the state produced by the body. -/
theorem with_transaction_fst_ok {σ R : Type} (env : TxEnv)
    (f : σ → Except AnyErr (R × σ)) (s : σ) (r : R)
    (h : (with_transaction env f s).1 = .ok r) :
    env.beginErr = none ∧ env.commitErr = none
    ∧ f s = .ok (r, (with_transaction env f s).2) := by
  obtain ⟨be, ce, re⟩ := env
  cases be with
  | some e0 => exact absurd h (by simp [with_transaction])
  | none =>
    cases hf : f s with
    | error e0 => exact absurd h (by simp [with_transaction, hf])
    | ok p =>
      obtain ⟨r1, s1⟩ := p
      cases ce with
      | some e0 => exact absurd h (by simp [with_transaction, hf])
      | none =>
        have hr : r1 = r := by simpa [with_transaction, hf] using h
        subst hr
        have h2 : (with_transaction ⟨none, none, re⟩ f s).2 = s1 := by
          simp [with_transaction, hf]
        refine ⟨rfl, rfl, ?_⟩
        rw [h2]

/-- Evaluation of a fully successful `with_transaction` call. -/
theorem with_transaction_eval_ok {σ R : Type} (env : TxEnv)
    (f : σ → Except AnyErr (R × σ)) (s s1 : σ) (r : R)
    (hb : env.beginErr = none) (hc : env.commitErr = none)
    (hf : f s = .ok (r, s1)) :
    with_transaction env f s = (.ok r, s1) := by
  obtain ⟨be, ce, re⟩ := env
  cases hb
  cases hc
  simp [with_transaction, hf]

/-- Evaluation of a `with_transaction` call whose body fails. -/
theorem with_transaction_eval_err {σ R : Type} (env : TxEnv)
    (f : σ → Except AnyErr (R × σ)) (s : σ) (e : AnyErr)
    (hb : env.beginErr = none) (hf : f s = .error e) :
    with_transaction env f s = (.error e, s) := by
  obtain ⟨be, ce, re⟩ := env
  cases hb
  simp [with_transaction, hf]

/-- `initializeLedger` leaves a state whose ledger table exists untouched. -/
theorem initializeLedger_of_some {σ : Type} (s : Db σ)
    (rows : List MigrationRecord) (h : s.ledgerTable = some rows) :
    initializeLedger s = s := by
  rcases s with ⟨sch, lt⟩
  cases h
  rfl

/-- The ledger table exists after `initializeLedger`. -/
theorem initializeLedger_ledgerTable {σ : Type} (s : Db σ) :
    (initializeLedger s).ledgerTable = some (s.ledgerTable.getD []) := rfl

/-- `initializeLedger` does not change the recorded versions. -/
theorem ledgerVersions_initializeLedger {σ : Type} (s : Db σ) :
    ledgerVersions (initializeLedger s) = ledgerVersions s := by
  rcases s with ⟨sch, lt⟩
  cases lt <;> rfl

/-- `initializeLedger` does not change the current version. -/
theorem get_current_version_initializeLedger {σ : Type} (s : Db σ) :
    get_current_version (initializeLedger s) = get_current_version s := by
  rcases s with ⟨sch, lt⟩
  cases lt <;> rfl

/-- The current version is the fold-max of the recorded versions (0 when
the table is empty or absent). -/
theorem get_current_version_eq_foldr {σ : Type} (s : Db σ) :
    get_current_version s = (ledgerVersions s).foldr max 0 := by
  rcases s with ⟨sch, lt⟩
  cases lt <;> rfl

/-- Every member of a list of naturals is bounded by its fold-max. -/
theorem mem_le_foldrMax (l : List Nat) (x : Nat) (h : x ∈ l) :
    x ≤ l.foldr max 0 := by
  induction l with
  | nil => cases h
  | cons a t ih =>
    rcases List.mem_cons.mp h with rfl | hx
    · exact Nat.le_max_left _ _
    · exact le_trans (ih hx) (Nat.le_max_right _ _)

/-- The fold-max of a list of naturals is bounded by any upper bound of
its members. -/
theorem foldrMax_le (l : List Nat) (b : Nat) (h : ∀ x ∈ l, x ≤ b) :
    l.foldr max 0 ≤ b := by
  induction l with
  | nil => exact Nat.zero_le b
  | cons a t ih =>
    exact max_le (h a (List.mem_cons_self a t))
      (ih fun x hx => h x (List.mem_cons_of_mem a hx))

/-- The fold-max of a list of naturals is 0 or one of its members. -/
theorem foldrMax_mem (l : List Nat) : l.foldr max 0 = 0 ∨ l.foldr max 0 ∈ l := by
  induction l with
  | nil => exact Or.inl rfl
  | cons a t ih =>
    rcases Nat.le_total a (t.foldr max 0) with hle | hle
    · rcases ih with h0 | hmem
      · have ha : a = 0 := Nat.le_antisymm (h0 ▸ hle) (Nat.zero_le a)
        subst ha
        left
        simp [h0]
      · right
        simp only [List.foldr_cons, Nat.max_eq_right hle]
        exact List.mem_cons_of_mem a hmem
    · right
      simp only [List.foldr_cons, Nat.max_eq_left hle]
      exact List.mem_cons_self a t

/-- Fold-max distributes over append. -/
theorem foldrMax_append (l1 l2 : List Nat) :
    (l1 ++ l2).foldr max 0 = max (l1.foldr max 0) (l2.foldr max 0) := by
  induction l1 with
  | nil => simp
  | cons a t ih => simp [ih, Nat.max_assoc]

/-- The inserted ledger row keeps the migration's version. -/
theorem mkRecord_version {σ : Type} (ctx : MigCtx σ) (m : Migration) :
    (mkRecord ctx m).version = m.version := rfl

/-- A successful `apply_migration` had a present ledger table and its
result state carries the old rows plus exactly the one new row. -/
theorem apply_migration_ok_state {σ : Type} (ctx : MigCtx σ) (env : TxEnv)
    (m : Migration) (s : Db σ) (u : Unit)
    (h : (apply_migration ctx env m s).1 = .ok u) :
    ∃ schema1 rows, s.ledgerTable = some rows
      ∧ (apply_migration ctx env m s).2
          = { schema := schema1
              ledgerTable := some (rows ++ [mkRecord ctx m]) } := by
  obtain ⟨hb, hc, hf⟩ := with_transaction_fst_ok env _ s u h
  cases heng : ctx.engine m.up_sql s.schema with
  | error e0 => simp [apply_migration_tx, heng] at hf
  | ok schema1 =>
    cases hl : s.ledgerTable with
    | none => simp [apply_migration_tx, heng, ledgerInsert, hl] at hf
    | some rows =>
      cases hdup : rows.any fun r => r.version == (mkRecord ctx m).version with
      | true => simp [apply_migration_tx, heng, ledgerInsert, hl, hdup] at hf
      | false =>
        refine ⟨schema1, rows, rfl, ?_⟩
        have hbody : apply_migration_tx ctx m s
            = .ok ((), ({ schema := schema1
                          ledgerTable := some (rows ++ [mkRecord ctx m]) } : Db σ)) := by
          unfold apply_migration_tx
          rw [heng]
          simp [ledgerInsert, hl, hdup]
        have heval := with_transaction_eval_ok env (apply_migration_tx ctx m)
          s _ () hb hc hbody
        show (with_transaction env (apply_migration_tx ctx m) s).2 = _
        rw [heval]

/-- A successful `revert_migration` had a present ledger table and its
result state carries exactly the old rows without the reverted version. -/
theorem revert_migration_ok_state {σ : Type} (ctx : MigCtx σ) (env : TxEnv)
    (m : Migration) (s : Db σ) (u : Unit)
    (h : (revert_migration ctx env m s).1 = .ok u) :
    ∃ schema1 rows, s.ledgerTable = some rows
      ∧ (revert_migration ctx env m s).2
          = { schema := schema1
              ledgerTable := some (rows.filter fun r => r.version != m.version) } := by
  cases hdown : m.down_sql with
  | none =>
    rw [show (revert_migration ctx env m s).1
        = (.error (.msg ("迁移 v" ++ toString m.version ++ " 没有提供回滚SQL")))
      from by unfold revert_migration; rw [hdown]] at h
    cases h
  | some down =>
    have hrw : revert_migration ctx env m s
        = with_transaction env (revert_migration_tx ctx m down) s := by
      unfold revert_migration
      rw [hdown]
    rw [hrw] at h ⊢
    obtain ⟨hb, hc, hf⟩ := with_transaction_fst_ok env _ s u h
    cases heng : ctx.engine down s.schema with
    | error e0 => simp [revert_migration_tx, heng] at hf
    | ok schema1 =>
      cases hl : s.ledgerTable with
      | none => simp [revert_migration_tx, heng, ledgerDelete, hl] at hf
      | some rows =>
        refine ⟨schema1, rows, rfl, ?_⟩
        have hbody : revert_migration_tx ctx m down s
            = .ok ((), ({ schema := schema1
                          ledgerTable := some (rows.filter fun r => r.version != m.version) } : Db σ)) := by
          unfold revert_migration_tx
          rw [heng]
          simp [ledgerDelete, hl]
        have heval := with_transaction_eval_ok env (revert_migration_tx ctx m down)
          s _ () hb hc hbody
        rw [heval]

/-- A successful `apply_list` run appends exactly the ledger rows of the
applied migrations, in order. -/
theorem apply_list_ok_ledger {σ : Type} (ctx : MigCtx σ) (env : TxEnv) :
    ∀ (L : List Migration) (s s' : Db σ) (rows : List MigrationRecord),
      apply_list ctx env L s = (.ok (), s') → s.ledgerTable = some rows →
      s'.ledgerTable = some (rows ++ L.map (mkRecord ctx)) := by
  intro L
  induction L with
  | nil =>
    intro s s' rows h hrows
    have hs : s = s' := by simpa [apply_list] using congrArg Prod.snd h
    simp [← hs, hrows]
  | cons m rest ih =>
    intro s s' rows h hrows
    rw [apply_list] at h
    rcases happ : apply_migration ctx env m s with ⟨r, s1⟩
    rw [happ] at h
    cases r with
    | error e => simp at h
    | ok u =>
      obtain ⟨schema1, rows0, hrows0, hstate⟩ :=
        apply_migration_ok_state ctx env m s u (by rw [happ])
      rw [happ] at hstate
      have heq : rows0 = rows := by
        rw [hrows0] at hrows
        exact Option.some.inj hrows
      subst heq
      have hs1 : s1 = { schema := schema1
                        ledgerTable := some (rows0 ++ [mkRecord ctx m]) } := hstate
      have hrows1 : s1.ledgerTable = some (rows0 ++ [mkRecord ctx m]) := by
        rw [hs1]
      have := ih s1 s' (rows0 ++ [mkRecord ctx m]) h hrows1
      rw [this]
      simp

/-- A successful `revert_list` run had a present ledger table and every row
of the resulting ledger is an old row whose version is none of the reverted
versions. -/
theorem revert_list_ok_versions {σ : Type} (ctx : MigCtx σ) (env : TxEnv) :
    ∀ (L : List Migration) (s s' : Db σ) (rows : List MigrationRecord),
      revert_list ctx env L s = (.ok (), s') → s.ledgerTable = some rows →
      ∃ rows', s'.ledgerTable = some rows'
        ∧ ∀ r ∈ rows', r ∈ rows ∧ r.version ∉ L.map Migration.version := by
  intro L
  induction L with
  | nil =>
    intro s s' rows h hrows
    have hs : s = s' := by simpa [revert_list] using congrArg Prod.snd h
    exact ⟨rows, by rw [← hs, hrows], fun r hr => ⟨hr, by simp⟩⟩
  | cons m rest ih =>
    intro s s' rows h hrows
    rw [revert_list] at h
    rcases hrev : revert_migration ctx env m s with ⟨r, s1⟩
    rw [hrev] at h
    cases r with
    | error e => simp at h
    | ok u =>
      obtain ⟨schema1, rows0, hrows0, hstate⟩ :=
        revert_migration_ok_state ctx env m s u (by rw [hrev])
      rw [hrev] at hstate
      have heq : rows0 = rows := by
        rw [hrows0] at hrows
        exact Option.some.inj hrows
      subst heq
      have hs1 : s1 = { schema := schema1
                        ledgerTable := some (rows0.filter fun r => r.version != m.version) } :=
        hstate
      have hrows1 : s1.ledgerTable
          = some (rows0.filter fun r => r.version != m.version) := by
        rw [hs1]
      obtain ⟨rows', hrows', hmem⟩ := ih s1 s' _ h hrows1
      refine ⟨rows', hrows', fun r hr => ?_⟩
      obtain ⟨hr1, hr2⟩ := hmem r hr
      have := List.mem_filter.mp hr1
      refine ⟨this.1, ?_⟩
      simp only [List.map_cons, List.mem_cons]
      rintro (hv | hv)
      · have := this.2
        simp [bne, hv] at this
      · exact hr2 hv

/-- `migrate` unfolded into its three branches. -/
theorem migrate_cases {σ : Type} (ctx : MigCtx σ) (env : TxEnv)
    (migs : List Migration) (t? : Option Nat) (s : Db σ) :
    migrate ctx env migs t? s =
      if get_current_version (initializeLedger s) = resolve_target migs t? then
        (.ok (), initializeLedger s)
      else if get_current_version (initializeLedger s) < resolve_target migs t? then
        migrate_up ctx env migs (get_current_version (initializeLedger s))
          (resolve_target migs t?) (initializeLedger s)
      else
        migrate_down ctx env migs (get_current_version (initializeLedger s))
          (resolve_target migs t?) (initializeLedger s) := rfl

/-- Current version of a state with a present ledger table. -/
theorem get_current_version_of_some {σ : Type} (s : Db σ)
    (rows : List MigrationRecord) (h : s.ledgerTable = some rows) :
    get_current_version s = maxVersionOf rows := by
  rcases s with ⟨sch, lt⟩
  cases h
  rfl

/-- `maxVersionOf` distributes over append. -/
theorem maxVersionOf_append (a b : List MigrationRecord) :
    maxVersionOf (a ++ b) = max (maxVersionOf a) (maxVersionOf b) := by
  unfold maxVersionOf
  rw [List.map_append, foldrMax_append]

/-- The versions of the appended ledger rows are the versions of the
applied migrations. -/
theorem map_version_mkRecord {σ : Type} (ctx : MigCtx σ) (L : List Migration) :
    (L.map (mkRecord ctx)).map MigrationRecord.version
      = L.map Migration.version := by
  induction L with
  | nil => rfl
  | cons m rest ih => simp [ih, mkRecord]

/-- Membership in the `migrate_up` selection. -/
theorem mem_migrations_to_apply (migs : List Migration) (a b : Nat)
    (m : Migration) :
    m ∈ migrations_to_apply migs a b ↔ m ∈ migs ∧ a < m.version ∧ m.version ≤ b := by
  simp [migrations_to_apply, List.mem_filter, and_assoc]

/-- When the target is the maximum registered version and the current
version is below it, the selection of `migrate_up` attains the target:
the resulting fold-max of applied versions is exactly the target. -/
theorem foldrMax_migrations_to_apply (migs : List Migration) (cur : Nat)
    (hlt : cur < (migs.map Migration.version).foldr max 0) :
    ((migrations_to_apply migs cur ((migs.map Migration.version).foldr max 0)).map
        Migration.version).foldr max 0
      = (migs.map Migration.version).foldr max 0 := by
  have ht0 : (migs.map Migration.version).foldr max 0 ≠ 0 := by
    omega
  have htmem : (migs.map Migration.version).foldr max 0 ∈ migs.map Migration.version := by
    rcases foldrMax_mem (migs.map Migration.version) with h0 | hmem
    · exact absurd h0 ht0
    · exact hmem
  obtain ⟨mt, hmt, hvt⟩ := List.mem_map.mp htmem
  apply Nat.le_antisymm
  · apply foldrMax_le
    intro x hx
    obtain ⟨mx, hmx, hvx⟩ := List.mem_map.mp hx
    have := (mem_migrations_to_apply migs cur _ mx).mp hmx
    omega
  · apply mem_le_foldrMax
    apply List.mem_map.mpr
    refine ⟨mt, ?_, hvt⟩
    exact (mem_migrations_to_apply migs cur _ mt).mpr ⟨hmt, by omega, by omega⟩

/-- With no explicit target, the resolved target is the maximum registered
version. -/
theorem resolve_target_none (migs : List Migration) :
    resolve_target migs none = (migs.map Migration.version).foldr max 0 := rfl

/-- When the target is the maximum registered version and the current
version is above it, the `migrate_down` selection is empty. -/
theorem migrations_to_revert_at_max (migs : List Migration) (cur : Nat) :
    migrations_to_revert migs ((migs.map Migration.version).foldr max 0) cur = [] := by
  unfold migrations_to_revert
  rw [List.filter_eq_nil_iff.mpr, List.reverse_nil]
  intro m hm
  have : m.version ≤ (migs.map Migration.version).foldr max 0 :=
    mem_le_foldrMax _ _ (List.mem_map.mpr ⟨m, hm, rfl⟩)
  simp only [Bool.and_eq_true, decide_eq_true_eq, not_and]
  omega

/-- The recorded versions of a state with a present ledger table. -/
theorem ledgerVersions_of_some {σ : Type} (s : Db σ)
    (rows : List MigrationRecord) (h : s.ledgerTable = some rows) :
    ledgerVersions s = rows.map MigrationRecord.version := by
  rcases s with ⟨sch, lt⟩
  cases h
  rfl

/-- Membership in the `migrate_down` selection. -/
theorem mem_migrations_to_revert (migs : List Migration) (a b : Nat)
    (m : Migration) :
    m ∈ migrations_to_revert migs a b
      ↔ m ∈ migs ∧ a < m.version ∧ m.version ≤ b := by
  simp [migrations_to_revert, List.mem_filter, and_assoc]

/-- One successful `migrate` call keeps every recorded version registered
and bounds all of them by the resolved target. -/
theorem migrate_step_invariant {σ : Type} (ctx : MigCtx σ) (env : TxEnv)
    (migs : List Migration) (t? : Option Nat) (s s' : Db σ)
    (hsub : ∀ v ∈ ledgerVersions s, v ∈ registeredVersions migs)
    (h : migrate ctx env migs t? s = (.ok (), s')) :
    ∀ v ∈ ledgerVersions s',
      v ∈ registeredVersions migs ∧ v ≤ resolve_target migs t? := by
  rw [migrate_cases] at h
  by_cases h1 : get_current_version (initializeLedger s) = resolve_target migs t?
  · rw [if_pos h1] at h
    have hs' : initializeLedger s = s' := congrArg Prod.snd h
    intro v hv
    rw [← hs', ledgerVersions_initializeLedger] at hv
    refine ⟨hsub v hv, ?_⟩
    have hb : v ≤ get_current_version s := by
      rw [get_current_version_eq_foldr]
      exact mem_le_foldrMax _ _ hv
    have hcur := get_current_version_initializeLedger s
    omega
  · rw [if_neg h1] at h
    by_cases h2 : get_current_version (initializeLedger s) < resolve_target migs t?
    · rw [if_pos h2] at h
      unfold migrate_up at h
      have hledger := apply_list_ok_ledger ctx env _ _ _ _ h
        (initializeLedger_ledgerTable s)
      have hv' : ledgerVersions s'
          = ledgerVersions s
            ++ (migrations_to_apply migs (get_current_version (initializeLedger s))
                (resolve_target migs t?)).map Migration.version := by
        rw [ledgerVersions_of_some s' _ hledger, List.map_append, map_version_mkRecord]
        rfl
      intro v hv
      rw [hv'] at hv
      rcases List.mem_append.mp hv with hvl | hvr
      · refine ⟨hsub v hvl, ?_⟩
        have hb : v ≤ get_current_version s := by
          rw [get_current_version_eq_foldr]
          exact mem_le_foldrMax _ _ hvl
        have hcur := get_current_version_initializeLedger s
        omega
      · obtain ⟨m, hm, hvm⟩ := List.mem_map.mp hvr
        have hmem := (mem_migrations_to_apply migs _ _ m).mp hm
        refine ⟨?_, by omega⟩
        exact List.mem_map.mpr ⟨m, hmem.1, hvm⟩
    · rw [if_neg h2] at h
      unfold migrate_down at h
      obtain ⟨rows', hrows', hmem⟩ := revert_list_ok_versions ctx env _ _ _ _ h
        (initializeLedger_ledgerTable s)
      intro v hv
      rw [ledgerVersions_of_some s' _ hrows'] at hv
      obtain ⟨r, hr, hvr⟩ := List.mem_map.mp hv
      obtain ⟨hr0, hnot⟩ := hmem r hr
      have hvin : v ∈ ledgerVersions s := by
        rw [show ledgerVersions s
            = (s.ledgerTable.getD []).map MigrationRecord.version from rfl]
        exact List.mem_map.mpr ⟨r, hr0, hvr⟩
      refine ⟨hsub v hvin, ?_⟩
      by_contra hvt
      push_neg at hvt
      obtain ⟨m, hmmem, hmv⟩ := List.mem_map.mp (hsub v hvin)
      have hb : v ≤ get_current_version (initializeLedger s) := by
        rw [get_current_version_initializeLedger, get_current_version_eq_foldr]
        exact mem_le_foldrMax _ _ hvin
      have hmrev : m ∈ migrations_to_revert migs (resolve_target migs t?)
          (get_current_version (initializeLedger s)) :=
        (mem_migrations_to_revert migs _ _ m).mpr ⟨hmmem, by omega, by omega⟩
      have hvrev : v ∈ (migrations_to_revert migs (resolve_target migs t?)
          (get_current_version (initializeLedger s))).map Migration.version :=
        List.mem_map.mpr ⟨m, hmrev, hmv⟩
      rw [← hvr] at hvrev
      exact hnot hvrev

/-- The invariant is preserved along every successful `migrate` sequence,
and the last step bounds the recorded versions by its resolved target. -/
theorem run_migrates_invariant {σ : Type} (ctx : MigCtx σ) (env : TxEnv)
    (migs : List Migration) :
    ∀ (ts : List (Option Nat)) (t : Option Nat) (s s' : Db σ),
      (∀ v ∈ ledgerVersions s, v ∈ registeredVersions migs) →
      run_migrates ctx env migs (ts ++ [t]) s = (.ok (), s') →
      ∀ v ∈ ledgerVersions s',
        v ∈ registeredVersions migs ∧ v ≤ resolve_target migs t := by
  intro ts
  induction ts with
  | nil =>
    intro t s s' hsub h
    rw [List.nil_append, run_migrates] at h
    rcases hm : migrate ctx env migs t s with ⟨r, s1⟩
    rw [hm] at h
    cases r with
    | error e => simp at h
    | ok u =>
      cases u
      have hs1 : s1 = s' := congrArg Prod.snd h
      exact hs1 ▸ migrate_step_invariant ctx env migs t s s1 hsub hm
  | cons t0 ts ih =>
    intro t s s' hsub h
    rw [List.cons_append, run_migrates] at h
    rcases hm : migrate ctx env migs t0 s with ⟨r, s1⟩
    rw [hm] at h
    cases r with
    | error e => simp at h
    | ok u =>
      cases u
      have hsub1 : ∀ v ∈ ledgerVersions s1, v ∈ registeredVersions migs :=
        fun v hv => (migrate_step_invariant ctx env migs t0 s s1 hsub hm v hv).1
      exact ih t s1 s' hsub1 h

/-! ## Claim theorems -/

/-- C1: `apply_migration` runs the forward script and the ledger-row
insertion inside one Immediate transaction: when the step fails (failed
forward script, failed ledger insert, or failed transaction control) the
returned state is exactly the pre-step state — schema and ledger untouched
for that version — and when it succeeds the schema is the forward script's
result and the ledger gained exactly the one row for that version, both in
the same step. -/
theorem apply_migration_atomic {σ : Type} (ctx : MigCtx σ) (env : TxEnv)
    (m : Migration) (s : Db σ) :
    (∀ e, (apply_migration ctx env m s).1 = .error e →
      (apply_migration ctx env m s).2 = s)
    ∧ (∀ u, (apply_migration ctx env m s).1 = .ok u →
      ∃ schema1 rows,
        ctx.engine m.up_sql s.schema = .ok schema1
        ∧ s.ledgerTable = some rows
        ∧ (apply_migration ctx env m s).2
            = { schema := schema1
                ledgerTable := some (rows ++ [mkRecord ctx m]) }) := by
  constructor
  · intro e h
    exact with_transaction_fst_error env _ s e h
  · intro u h
    obtain ⟨hb, hc, hf⟩ := with_transaction_fst_ok env _ s u h
    cases heng : ctx.engine m.up_sql s.schema with
    | error e0 => simp [apply_migration_tx, heng] at hf
    | ok schema1 =>
      cases hl : s.ledgerTable with
      | none => simp [apply_migration_tx, heng, ledgerInsert, hl] at hf
      | some rows =>
        cases hdup : rows.any fun r => r.version == (mkRecord ctx m).version with
        | true => simp [apply_migration_tx, heng, ledgerInsert, hl, hdup] at hf
        | false =>
          refine ⟨schema1, rows, rfl, rfl, ?_⟩
          have hbody : apply_migration_tx ctx m s
              = .ok ((), ({ schema := schema1
                            ledgerTable := some (rows ++ [mkRecord ctx m]) } : Db σ)) := by
            unfold apply_migration_tx
            rw [heng]
            simp [ledgerInsert, hl, hdup]
          have := with_transaction_eval_ok env (apply_migration_tx ctx m)
            s _ () hb hc hbody
          show (with_transaction env (apply_migration_tx ctx m) s).2 = _
          rw [this]

/-- Witness for C1: a failing forward script leaves the fresh state (schema
and absent ledger) exactly as it was. -/
theorem apply_migration_atomic_witness :
    (apply_migration ctxFailW TxEnv.all_ok mig1 s0W).2 = s0W :=
  (apply_migration_atomic ctxFailW TxEnv.all_ok mig1 s0W).1
    (.msg "near u1: syntax error") rfl

/-- C3: `migrate_up` selects exactly the registered migrations with version
in `(current, target]` and — on a version-sorted registration list, as
`add_migration`/`add_migrations` maintain — processes them in ascending
version order; `migrate_down` selects exactly those in `(target, current]`
and processes them in descending version order.  In particular, over the
registered versions {1, 2, 3}, `migrate(Some(2))` from a fresh database
applies v1 and v2, and the later `migrate(Some(3))` selects `[v3]` only,
applying v3 once and never re-applying v1 or v2. -/
theorem migrate_selection_and_order (migs : List Migration)
    (cur tgt : Nat) (m : Migration)
    (hsorted : migs.Pairwise (fun a b => a.version ≤ b.version)) :
    (m ∈ migrations_to_apply migs cur tgt
      ↔ m ∈ migs ∧ cur < m.version ∧ m.version ≤ tgt)
    ∧ (migrations_to_apply migs cur tgt).Pairwise
        (fun a b => a.version ≤ b.version)
    ∧ (m ∈ migrations_to_revert migs tgt cur
      ↔ m ∈ migs ∧ tgt < m.version ∧ m.version ≤ cur)
    ∧ (migrations_to_revert migs tgt cur).Pairwise
        (fun a b => b.version ≤ a.version)
    ∧ (migrate ctxW TxEnv.all_ok migsW (some 2) s0W = (.ok (), s1W)
      ∧ migrate ctxW TxEnv.all_ok migsW (some 3) s1W = (.ok (), s2W)
      ∧ migrations_to_apply migsW 2 3 = [mig3]) := by
  refine ⟨?_, ?_, ?_, ?_, rfl, rfl, rfl⟩
  · simp [migrations_to_apply, List.mem_filter, and_assoc]
  · exact hsorted.filter _
  · simp [migrations_to_revert, List.mem_filter, and_assoc]
  · exact List.pairwise_reverse.mpr (hsorted.filter _)

/-- Witness for C3: the concrete scenario over registered versions
{1, 2, 3} — `migrate(Some(2))` then `migrate(Some(3))`, the latter
selecting only v3. -/
theorem migrate_selection_and_order_witness :
    migrate ctxW TxEnv.all_ok migsW (some 2) s0W = (.ok (), s1W)
    ∧ migrate ctxW TxEnv.all_ok migsW (some 3) s1W = (.ok (), s2W)
    ∧ migrations_to_apply migsW 2 3 = [mig3] :=
  (migrate_selection_and_order migsW 2 3 mig3
    (by simp [migsW, mig1, mig2, mig3])).2.2.2.2

/-- C6: `migrate(None)` is idempotent — from any state on which a first run
succeeds, a second run succeeds, leaves the state (schema and ledger, hence
the current version) exactly as the first run left it, and performs zero
schema mutations (it takes the `current == target` or empty-selection
no-op path). -/
theorem migrate_none_idempotent {σ : Type} (ctx : MigCtx σ) (env : TxEnv)
    (migs : List Migration) (s s' : Db σ)
    (h : migrate ctx env migs none s = (.ok (), s')) :
    migrate ctx env migs none s' = (.ok (), s') := by
  rw [migrate_cases] at h
  by_cases h1 : get_current_version (initializeLedger s) = resolve_target migs none
  · rw [if_pos h1] at h
    have hs' : initializeLedger s = s' := congrArg Prod.snd h
    have hinit : initializeLedger s' = s' :=
      initializeLedger_of_some s' _ (by rw [← hs']; exact initializeLedger_ledgerTable s)
    have hver : get_current_version s' = resolve_target migs none := by
      rw [← hs']
      exact h1
    rw [migrate_cases, hinit, hver, if_pos rfl]
  · rw [if_neg h1] at h
    by_cases h2 : get_current_version (initializeLedger s) < resolve_target migs none
    · rw [if_pos h2] at h
      have hrows0 : (initializeLedger s).ledgerTable
          = some (s.ledgerTable.getD []) := initializeLedger_ledgerTable s
      have hledger := apply_list_ok_ledger ctx env _ _ _ _ h hrows0
      have hinit : initializeLedger s' = s' := initializeLedger_of_some s' _ hledger
      have hver : get_current_version s' = resolve_target migs none := by
        rw [get_current_version_of_some s' _ hledger, maxVersionOf_append]
        have hrecs : maxVersionOf ((migrations_to_apply migs
              (get_current_version (initializeLedger s))
              (resolve_target migs none)).map (mkRecord ctx))
            = resolve_target migs none := by
          unfold maxVersionOf
          rw [map_version_mkRecord, resolve_target_none]
          exact foldrMax_migrations_to_apply migs _
            (by rw [← resolve_target_none]; exact h2)
        rw [hrecs]
        have hcur : maxVersionOf (s.ledgerTable.getD [])
            = get_current_version (initializeLedger s) :=
          (get_current_version_of_some _ _ hrows0).symm
        rw [hcur]
        exact Nat.max_eq_right (le_of_lt h2)
      rw [migrate_cases, hinit, hver, if_pos rfl]
    · rw [if_neg h2] at h
      unfold migrate_down at h
      rw [resolve_target_none, migrations_to_revert_at_max] at h
      rw [revert_list] at h
      have hs' : initializeLedger s = s' := congrArg Prod.snd h
      have hinit : initializeLedger s' = s' :=
        initializeLedger_of_some s' _ (by rw [← hs']; exact initializeLedger_ledgerTable s)
      have hver : get_current_version s' = get_current_version (initializeLedger s) := by
        rw [← hs']
      rw [migrate_cases, hinit, hver, if_neg h1, if_neg h2]
      unfold migrate_down
      rw [resolve_target_none, migrations_to_revert_at_max, revert_list]

/-- Witness for C6: after a successful `migrate(None)` over {v1, v2, v3}
from a fresh database, a second `migrate(None)` returns success with the
state untouched. -/
theorem migrate_none_idempotent_witness :
    migrate ctxW TxEnv.all_ok migsW none s2W = (.ok (), s2W) :=
  migrate_none_idempotent ctxW TxEnv.all_ok migsW s0W s2W rfl

/-- C7: starting from an empty (or absent) ledger, after every sequence of
successful `migrate` calls the set of versions recorded in the ledger table
is a subset of the registered migration versions at or below the last
call's resolved target, and the current schema version reported equals the
fold-max of the recorded versions — 0 when the ledger is empty or the
table absent. -/
theorem migrate_ledger_invariant {σ : Type} (ctx : MigCtx σ) (env : TxEnv)
    (migs : List Migration) (ts : List (Option Nat)) (t : Option Nat)
    (s s' : Db σ) (hstart : ledgerVersions s = [])
    (h : run_migrates ctx env migs (ts ++ [t]) s = (.ok (), s')) :
    (∀ v ∈ ledgerVersions s',
      v ∈ registeredVersions migs ∧ v ≤ resolve_target migs t)
    ∧ get_current_version s' = (ledgerVersions s').foldr max 0 := by
  refine ⟨run_migrates_invariant ctx env migs ts t s s' ?_ h,
    get_current_version_eq_foldr s'⟩
  intro v hv
  rw [hstart] at hv
  cases hv

/-- Witness for C7: the sequence `migrate(Some(2)); migrate(Some(3))` from a
fresh database — version 3 is recorded, registered, bounded by the last
target, and the reported version is the ledger fold-max. -/
theorem migrate_ledger_invariant_witness :
    (3 ∈ registeredVersions migsW ∧ 3 ≤ resolve_target migsW (some 3))
    ∧ get_current_version s2W = (ledgerVersions s2W).foldr max 0 := by
  have h := migrate_ledger_invariant ctxW TxEnv.all_ok migsW [some 2] (some 3)
    s0W s2W rfl rfl
  exact ⟨h.1 3 (by decide), h.2⟩

/-- C4: reverting a migration whose reverse script is absent fails with the
migration error `迁移 v{version} 没有提供回滚SQL` naming the offending
version, the outcome does not depend on the transaction environment (no
transaction is opened for the step), and the ledger — hence the reported
current schema version — is unchanged. -/
theorem revert_migration_missing_down {σ : Type} (ctx : MigCtx σ)
    (env env' : TxEnv) (m : Migration) (s : Db σ) (h : m.down_sql = none) :
    revert_migration ctx env m s
      = (.error (.msg ("迁移 v" ++ toString m.version ++ " 没有提供回滚SQL")), s)
    ∧ revert_migration ctx env m s = revert_migration ctx env' m s
    ∧ ledgerVersions (revert_migration ctx env m s).2 = ledgerVersions s
    ∧ get_current_version (revert_migration ctx env m s).2
        = get_current_version s := by
  have h1 : revert_migration ctx env m s
      = (.error (.msg ("迁移 v" ++ toString m.version ++ " 没有提供回滚SQL")), s) := by
    unfold revert_migration
    rw [h]
  have h2 : revert_migration ctx env' m s
      = (.error (.msg ("迁移 v" ++ toString m.version ++ " 没有提供回滚SQL")), s) := by
    unfold revert_migration
    rw [h]
  exact ⟨h1, h1.trans h2.symm, by rw [h1], by rw [h1]⟩

/-- Witness for C4: reverting v3 (which has no reverse script) fails naming
version 3 and leaves the state unchanged. -/
theorem revert_migration_missing_down_witness :
    revert_migration ctxW TxEnv.all_ok mig3 s0W
      = (.error (.msg "迁移 v3 没有提供回滚SQL"), s0W) := by
  have h := (revert_migration_missing_down ctxW TxEnv.all_ok TxEnv.all_ok
    mig3 s0W rfl).1
  simpa using h

/-- C2: for every body, `with_transaction` (Immediate) commits and returns
the body's result on `Ok` (together with the body's mutated state); on `Err`
it rolls back (the returned state is the pre-transaction state) and
propagates the body's original error unchanged; and a failure of the
rollback itself (`rollbackErr`) never replaces the original error in the
returned value. -/
theorem with_transaction_ok_commits_err_propagates {σ R : Type}
    (env : TxEnv) (f : σ → Except AnyErr (R × σ)) (s : σ)
    (hbegin : env.beginErr = none) :
    (∀ r s1, f s = .ok (r, s1) → env.commitErr = none →
      with_transaction env f s = (.ok r, s1))
    ∧ (∀ e, f s = .error e → with_transaction env f s = (.error e, s))
    ∧ (∀ e rb, f s = .error e →
      with_transaction { env with rollbackErr := rb } f s = (.error e, s)) := by
  refine ⟨?_, ?_, ?_⟩
  · intro r s1 hf hcommit
    simp [with_transaction, hbegin, hf, hcommit]
  · intro e hf
    simp [with_transaction, hbegin, hf]
  · intro e rb hf
    simp [with_transaction, hbegin, hf]

/-- Witness for C2 at a concrete failing body: the original error comes
back untouched even though the rollback itself fails. -/
theorem with_transaction_ok_commits_err_propagates_witness :
    with_transaction
        { TxEnv.all_ok with rollbackErr := some (.msg "rollback failed") }
        (fun _ => (.error (.msg "boom") : Except AnyErr (Nat × Nat))) (7 : Nat)
      = (.error (.msg "boom"), 7) :=
  (with_transaction_ok_commits_err_propagates TxEnv.all_ok
    (fun _ => .error (.msg "boom")) 7 rfl).2.2 (.msg "boom")
    (some (.msg "rollback failed")) rfl

/-- C5 counterexample: a body that issues a write statement inside the
Deferred (read-only) wrapper does not get an `Err` — the write is silently
committed, so the claim "it fails whenever the body issues a write
statement" is false on the code. -/
theorem with_read_transaction_write_not_rejected :
    with_read_transaction TxEnv.all_ok deferredWriteBody s0W
      = (.ok (), { schema := ["INSERT INTO t VALUES (1)"], ledgerTable := none })
    ∧ ({ schema := ["INSERT INTO t VALUES (1)"], ledgerTable := none } : Db (List String))
        ≠ s0W := by
  exact ⟨rfl, by decide⟩

/-- C5 (amended): `with_read_transaction` begins a Deferred transaction,
runs the body, commits whatever state the body produced on `Ok` — including
states mutated by write statements, which SQLite permits under BEGIN
DEFERRED — and propagates a body error with the pre-transaction state
restored.  It does not fail when the body issues a write. -/
theorem with_read_transaction_commits_body_result {σ R : Type}
    (env : TxEnv) (f : σ → Except AnyErr (R × σ)) (s : σ)
    (hbegin : env.beginErr = none) (hcommit : env.commitErr = none) :
    (∀ r s1, f s = .ok (r, s1) → with_read_transaction env f s = (.ok r, s1))
    ∧ (∀ e, f s = .error e → with_read_transaction env f s = (.error e, s)) := by
  refine ⟨?_, ?_⟩
  · intro r s1 hf
    simp [with_read_transaction, hbegin, hf, hcommit]
  · intro e hf
    simp [with_read_transaction, hbegin, hf]

/-- Witness for the amended C5: the mutating body's write is committed. -/
theorem with_read_transaction_commits_body_result_witness :
    with_read_transaction TxEnv.all_ok deferredWriteBody s0W
      = (.ok (), { schema := ["INSERT INTO t VALUES (1)"], ledgerTable := none }) :=
  (with_read_transaction_commits_body_result TxEnv.all_ok deferredWriteBody s0W
    rfl rfl).1 () { schema := ["INSERT INTO t VALUES (1)"], ledgerTable := none } rfl

/-- C9: a single-row query on an empty result set fails with rusqlite's
`QueryReturnedNoRows` as the root cause of the returned error — a kind
distinguishable from the root cause of a failing statement
(`SqliteFailure`), so callers can tell zero rows apart from a malformed or
failing query. -/
theorem query_row_no_rows_distinguishable {Row T : Type}
    (sql : String) (f : Row → Except SqliteErr T) (m : String) :
    errorRoot (query_row sql (.ok ([] : List Row)) f)
      = some (.sqlite .queryReturnedNoRows)
    ∧ errorRoot (query_row sql
        (Except.error (SqliteErr.sqliteFailure m) : Except SqliteErr (List Row)) f)
      = some (.sqlite (.sqliteFailure m))
    ∧ AnyErr.sqlite (.sqliteFailure m) ≠ AnyErr.sqlite .queryReturnedNoRows := by
  refine ⟨rfl, rfl, by simp⟩

/-- C10: `get_pool_status` computes the utilization as
`connections / capacity * 100` only when the capacity is positive, and
returns exactly 0 when the configured capacity is 0 — it never divides by
zero. -/
theorem get_pool_status_utilization_guard (max_size : Nat) (st : PoolState) :
    (get_pool_status 0 st).utilization_percentage = 0
    ∧ (0 < max_size →
        (get_pool_status max_size st).utilization_percentage
          = (st.connections : ℚ) / (max_size : ℚ) * 100) := by
  constructor
  · simp [get_pool_status]
  · intro h
    simp [get_pool_status, h]

/-- Witness for C10 at capacity 10 with 5 connections: utilization 50%. -/
theorem get_pool_status_utilization_guard_witness :
    (get_pool_status 10 { connections := 5, idle_connections := 2 }).utilization_percentage
      = 50 := by
  rw [(get_pool_status_utilization_guard 10
    { connections := 5, idle_connections := 2 }).2 (by norm_num)]
  norm_num

/-- C8: the overall `healthy` flag of the full health check equals the
conjunction of the pool-health, basic-connection, integrity and disk-usage
sub-check results; the performance sub-check is recorded in the check list
but changing its inputs never changes the overall flag. -/
theorem check_health_overall_is_conjunction (env : HealthEnv)
    (r : Except AnyErr Int) (d : Nat) :
    (check_health env).healthy
      = ((check_pool_health env).healthy && (check_basic_connection env).passed
          && (check_database_integrity env).passed && (check_disk_space env).passed)
    ∧ check_performance env ∈ (check_health env).checks
    ∧ (check_health (env.setPerf r d)).healthy = (check_health env).healthy := by
  refine ⟨rfl, ?_, rfl⟩
  simp [check_health]

end MiniCrm
